import Mathlib

/-!
Shallow embedding of `src/dilbert/dilbert.py` (FetchComics).

Calendar dates are modelled as integers counting days (Python's
`datetime.date` is order-isomorphic to its `toordinal()` day count, and
`date + timedelta(days=n)` is addition on that count).  `daysFromCivil` /
`civilFromDays` convert between `(year, month, day)` triples and the day
count so that concrete calendar dates and `date.isoformat()` can be
computed.
-/

namespace Dilbert

/-- Day count of a civil (proleptic Gregorian) date, epoch 1970-01-01
(standard days-from-civil algorithm; used only to name concrete dates). -/
def daysFromCivil (y m d : Int) : Int :=
  let y' := if m ≤ 2 then y - 1 else y
  let era := (if 0 ≤ y' then y' else y' - 399) / 400
  let yoe := y' - era * 400
  let mp := (m + 9) % 12
  let doy := (153 * mp + 2) / 5 + d - 1
  let doe := yoe * 365 + yoe / 4 - yoe / 100 + doy
  era * 146097 + doe - 719468

/-- Inverse of `daysFromCivil`: `(year, month, day)` of a day count. -/
def civilFromDays (z0 : Int) : Int × Int × Int :=
  let z := z0 + 719468
  let era := (if 0 ≤ z then z else z - 146096) / 146097
  let doe := z - era * 146097
  let yoe := (doe - doe / 1460 + doe / 36524 - doe / 146096) / 365
  let y := yoe + era * 400
  let doy := doe - (365 * yoe + yoe / 4 - yoe / 100)
  let mp := (5 * doy + 2) / 153
  let d := doy - (153 * mp + 2) / 5 + 1
  let m := mp + (if mp < 10 then 3 else -9)
  (if m ≤ 2 then y + 1 else y, m, d)

/-- Zero-pad a (nonnegative, small) integer to two digits. -/
def pad2 (n : Int) : String :=
  if n < 10 then "0" ++ toString n else toString n

/-- Python `date.isoformat()`: `YYYY-MM-DD` (years in scope are 4-digit). -/
def isoformat (dt : Int) : String :=
  let c := civilFromDays dt
  toString c.1 ++ "-" ++ pad2 c.2.1 ++ "-" ++ pad2 c.2.2

/-- Source `_daterange(start_date, end_date)`: the inclusive
ascending list of dates from `start_date` to `end_date`
(`for n in range(int((end_date - start_date).days) + 1): yield start_date
+ timedelta(days=n)`); empty when `end_date < start_date`. -/
def _daterange (start_date end_date : Int) : List Int :=
  (List.range (end_date - start_date + 1).toNat).map
    (fun (n : Nat) => start_date + (n : Int))

/-! ## Document parser (`Dilbert.find_comic_by_pubdate`, parse half) -/

/-- An `<img>` element of the fetched day page: its `class` attribute and
the attributes the parser reads (`src`, `alt` as present strings,
`width`/`height` possibly absent, as `el.get` returns). -/
structure ImgEl where
  cls : String
  src : String
  alt : String
  width : Option String
  height : Option String
deriving DecidableEq

/-- A fetched day page, abstracted to its `<img>` elements in document
order (all the XPath query can select from). -/
abbrev Html := List ImgEl

/-- Whitespace-delimited tokens of a character list (the effect of
XPath `normalize-space` on the class attribute). -/
def wsTokens (cur : List Char) : List Char → List (List Char)
  | [] => if cur.isEmpty then [] else [cur.reverse]
  | c :: rest =>
      if c.isWhitespace then
        if cur.isEmpty then wsTokens [] rest
        else cur.reverse :: wsTokens [] rest
      else wsTokens (c :: cur) rest

/-- The XPath filter
`img[@class and contains(concat(' ', normalize-space(@class), ' '), ' img-comic ')]`:
the space-delimited class list contains the token `img-comic`. -/
def hasComicClass (cls : String) : Bool :=
  (wsTokens [] cls.toList).contains "img-comic".toList

/-- The prefix of a character list before the first occurrence of
`" - "`. -/
def stripDashAux : List Char → List Char
  | ' ' :: '-' :: ' ' :: _ => []
  | c :: rest => c :: stripDashAux rest
  | [] => []

/-- Python `re.sub(' - .*$', '', s)`: drop everything from the first
occurrence of `" - "` to the end of the string. -/
def stripDashSuffix (s : String) : String :=
  ⟨stripDashAux s.toList⟩

/-! ## Comic draft (`DilbertComic`, field-constructor branch) -/

/-- The in-memory comic draft built by the parser (the field-constructor
branch of `DilbertComic.__init__`; `id`/`updated` stay unset until the
store assigns them).  `title`, `width`, `height` may be `None`. -/
structure DilbertComic where
  pubdate : Int
  url : String
  title : Option String
  filename : String
  width : Option String
  height : Option String
deriving DecidableEq

/-- Constructor `DilbertComic(...)` via the field branch, including the
empty-title normalization `if self.title == '': self.title = "-"`. -/
def mkComic (pubdate : Int) (url : String) (title : Option String)
    (filename : String) (width height : Option String) : DilbertComic :=
  { pubdate := pubdate, url := url,
    title := if title = some "" then some "-" else title,
    filename := filename, width := width, height := height }

/-- Errors of the sync pipeline (§7 taxonomy: the network/HTTP failure,
the missing-element parse failure, the duplicate-key insert failure). -/
inductive SyncError where
  | transportError
  | parseError
  | constraintError
deriving DecidableEq

/-- Parse half of `find_comic_by_pubdate`: select the first `img` whose
class list contains `img-comic` (`html.xpath(...)[0]` raises when the
selection is empty — the abstract `ParseError`), then build the draft
with `src`, `alt` stripped of its `" - ..."` suffix, the filename
`<iso-date>.gif`, and the `width`/`height` attributes as given. -/
def find_comic_in_page (pubdate : Int) (html : Html) :
    Except SyncError DilbertComic :=
  match (html.filter (fun el => hasComicClass el.cls)).head? with
  | none => .error .parseError
  | some el =>
      .ok (mkComic pubdate el.src (some (stripDashSuffix el.alt))
        (isoformat pubdate ++ ".gif") el.width el.height)

/-! ## Store (the sqlite table `dilbert`)

A row of the table.  The code stores every value through Python `str`, so
the `url`, `title`, `filename`, `width`, `height` columns hold text
(`str(None)` is the four characters `None`).  The `pubdate` column holds
the ISO-8601 text `str(comic.pubdate)`, whose lexicographic order
coincides with chronological order; it is modelled by the date value
itself so that the SQL `order by pubdate` is order on `Int`.  `id` is
the autoincrement surrogate key and `updated` the insert-time default
timestamp; both are assigned by the store and modelled by monotone
counters (their concrete values never matter to the program). -/
structure DBRow where
  id : Nat
  pubdate : Int
  url : String
  title : String
  filename : String
  width : String
  height : String
  updated : Nat
deriving DecidableEq

/-- The store: the rows of the table `dilbert`, in insertion order. -/
structure DB where
  rows : List DBRow
deriving DecidableEq

/-- A freshly created (empty) store. -/
def emptyDB : DB := ⟨[]⟩

/-- Python `str` on an optional string field: `str(None) = "None"`. -/
def pyStr (o : Option String) : String := o.getD "None"

/-- The row the insert statement of `write_comic_to_db` produces from a
draft: each bound value is `str(comic[k])`. -/
def rowOfComic (db : DB) (comic : DilbertComic) : DBRow :=
  { id := db.rows.length + 1
    pubdate := comic.pubdate
    url := comic.url
    title := pyStr comic.title
    filename := comic.filename
    width := pyStr comic.width
    height := pyStr comic.height
    updated := db.rows.length }

/-- Source `Dilbert.write_comic_to_db`: `insert into dilbert
(pubdate,url,title,filename,width,height) values (?,?,?,?,?,?)` with
each value passed through `str`.  The `UNIQUE` constraint on `filename`
makes the insert fail (sqlite `IntegrityError`, the abstract
`ConstraintError`) when a row with the same filename exists; otherwise
the row is appended with store-assigned `id` and `updated`. -/
def write_comic_to_db (db : DB) (comic : DilbertComic) : Except SyncError DB :=
  if db.rows.any (fun r => r.filename = comic.filename) then
    .error .constraintError
  else
    .ok ⟨db.rows ++ [rowOfComic db comic]⟩

/-- The `order by pubdate desc` ordering on rows (non-strict, descending
by date). -/
abbrev pubdateDesc (a b : DBRow) : Prop := b.pubdate ≤ a.pubdate

instance : IsTotal DBRow pubdateDesc :=
  ⟨fun a b => (Int.le_total a.pubdate b.pubdate).symm⟩

instance : IsTrans DBRow pubdateDesc :=
  ⟨fun _ _ _ h h' => Int.le_trans h' h⟩

/-- The rows sorted by `order by pubdate desc`. -/
def rowsByPubdateDesc (db : DB) : List DBRow :=
  db.rows.insertionSort pubdateDesc

/-- Source `Dilbert.latest_date_in_db`: `select pubdate from dilbert order by
pubdate desc limit 1`; the single returned row's pubdate, or `None`
when the table is empty. -/
def latest_date_in_db (db : DB) : Option Int :=
  (rowsByPubdateDesc db).head?.map (·.pubdate)

/-- Source `Dilbert.comics(num)`: `select * from dilbert order by pubdate desc
limit num`. -/
def comics (db : DB) (num : Nat := 10) : List DBRow :=
  (rowsByPubdateDesc db).take num

/-! ## Synchronizer (`Dilbert.update` and per-day pipeline)

The network is modelled by an oracle giving, for each date, the outcome
of fetching that day's page (`Except` for a transport failure) and of
downloading that day's image.  Fetches are keyed by date because the
day-page URL `http://dilbert.com/strip/<iso-date>` and the image
download are determined by the date being processed. -/
structure Origin where
  page : Int → Except Unit Html
  img : Int → Bool

/-- Fetch half of `find_comic_by_pubdate`: `fetch_url` of the per-day
URL; a network/HTTP failure is the abstract `TransportError`. -/
def fetch_day (o : Origin) (pubdate : Int) : Except SyncError Html :=
  match o.page pubdate with
  | .error _ => .error .transportError
  | .ok html => .ok html

/-- Source `Dilbert.find_comic_by_pubdate`: fetch the day page, then parse it. -/
def find_comic_by_pubdate (o : Origin) (pubdate : Int) :
    Except SyncError DilbertComic :=
  match fetch_day o pubdate with
  | .error e => .error e
  | .ok html => find_comic_in_page pubdate html

/-- Source `Dilbert.download_comic`: fetch the image into `cartoons/<filename>`;
a network/HTTP failure is the abstract `TransportError`. -/
def download_comic (o : Origin) (pubdate : Int) : Except SyncError Unit :=
  if o.img pubdate then .ok () else .error .transportError

/-- Source `Dilbert.update_comic_by_pubdate`: fetch+parse the day's comic,
download its image, then write the draft to the store.  Each step's
failure propagates; the write happens only after all three succeed. -/
def update_comic_by_pubdate (o : Origin) (db : DB) (pubdate : Int) :
    Except SyncError DB :=
  match find_comic_by_pubdate o pubdate with
  | .error e => .error e
  | .ok comic =>
      match download_comic o pubdate with
      | .error e => .error e
      | .ok _ => write_comic_to_db db comic

/-- The `for pubdate in _daterange(...)` loop body of `Dilbert.update`,
over an explicit date list: process each date in order; the first
failure aborts the run, leaving the store as of the last committed date.
Returns the final store, the list of dates for which a day-fetch was
issued (every date reached issues one), and the aborting error, if any. -/
def runDates (o : Origin) (db : DB) : List Int → DB × List Int × Option SyncError
  | [] => (db, [], none)
  | d :: rest =>
      match update_comic_by_pubdate o db d with
      | .error e => (db, [d], some e)
      | .ok db' =>
          let r := runDates o db' rest
          (r.1, d :: r.2.1, r.2.2)

/-- The date range computed by `Dilbert.update`: `start` is the latest
stored date, or `today - 10 days` when the store is empty; then
`start = start + 1 day` and the range is `_daterange(start, today)`. -/
def plannedDates (db : DB) (today : Int) : List Int :=
  let start :=
    match latest_date_in_db db with
    | none => today - 10
    | some d => d
  _daterange (start + 1) today

/-- Source `Dilbert.update`: one sync run over the computed date range. -/
def update (o : Origin) (db : DB) (today : Int) :
    DB × List Int × Option SyncError :=
  runDates o db (plannedDates db today)

/-! ## Feed builder (`Dilbert.feed`, `DilbertComic.tag`) -/

/-- One entry of the generated feed (`feed.add_item(...)`). -/
structure FeedItem where
  title : String
  author_name : String
  link : String
  pubdate : Int
  updated : Nat
  description : String
deriving DecidableEq

/-- The row branch of `DilbertComic.__init__` normalizes an empty
stored title to `"-"` (applied when rows are read back for the feed). -/
def rowTitle (t : String) : String := if t = "" then "-" else t

/-- Source `DilbertComic.tag(baseurl)` on a stored row: the `<img>` HTML tag
with `src = baseurl ++ "/" ++ filename`, the pubdate in the alt text,
and `width`/`height` attributes when those fields are truthy. -/
def tag (r : DBRow) (baseurl : String) : String :=
  let w := if r.width ≠ "" then "width=\"" ++ r.width ++ "\"" else ""
  let h := if r.height ≠ "" then "height=\"" ++ r.height ++ "\"" else ""
  let url := baseurl ++ "/" ++ r.filename
  "<img src=\"" ++ url ++ "\" alt=\"comic for " ++ isoformat r.pubdate
    ++ "\" " ++ w ++ " " ++ h ++ "/>"

/-- The entry `Dilbert.feed` adds for one stored row: fixed author, the
per-day page link rebuilt from the pubdate, the row's timestamps, and
the image tag as description. -/
def feedItemOfRow (baseurl : String) (r : DBRow) : FeedItem :=
  { title := rowTitle r.title, author_name := "Scott Adams",
    link := "http://dilbert.com/strip/" ++ isoformat r.pubdate,
    pubdate := r.pubdate, updated := r.updated,
    description := tag r baseurl }

/-- Source `Dilbert.feed`: one entry per row of `comics(10)`, in that order. -/
def feedEntries (db : DB) (baseurl : String) : List FeedItem :=
  (comics db 10).map (feedItemOfRow baseurl)

/-! ## Concrete instances used in scenario checks -/

def date_2024_03_05 : Int := daysFromCivil 2024 3 5
def date_2024_03_06 : Int := daysFromCivil 2024 3 6
def date_2024_03_14 : Int := daysFromCivil 2024 3 14
def date_2024_03_15 : Int := daysFromCivil 2024 3 15

/-- A day-page image element carrying the comic marker class. -/
def okEl : ImgEl :=
  { cls := "img-responsive img-comic"
    src := "http://assets.example/strip.gif"
    alt := "Working Hard - Dilbert by Scott Adams"
    width := some "900"
    height := some "280" }

/-- A day-page image element without the comic marker class. -/
def noComicEl : ImgEl :=
  { cls := "img-banner"
    src := "http://ads.example/b.png"
    alt := "ad"
    width := none
    height := none }

/-- An origin whose day pages always contain the comic and whose image
downloads always succeed. -/
def allOkOrigin : Origin := { page := fun _ => .ok [okEl], img := fun _ => true }

/-- An origin whose day-page fetches always fail (network down). -/
def failOrigin : Origin := { page := fun _ => .error (), img := fun _ => true }

/-- An origin whose day pages never contain the comic marker class. -/
def noMarkerOrigin : Origin := { page := fun _ => .ok [noComicEl], img := fun _ => true }

/-- A store holding a single row, for 2024-03-15. -/
def dbOne : DB :=
  ⟨[{ id := 1, pubdate := date_2024_03_15, url := "http://assets.example/a.gif",
      title := "t", filename := "2024-03-15.gif", width := "900", height := "280",
      updated := 0 }]⟩

/-- A store holding a single row, for 2024-03-14. -/
def dbOld : DB :=
  ⟨[{ id := 1, pubdate := date_2024_03_14, url := "http://assets.example/a.gif",
      title := "t", filename := "2024-03-14.gif", width := "900", height := "280",
      updated := 0 }]⟩

/-- A store with ten rows, pubdates 0 through 9. -/
def dbTen : DB :=
  ⟨(List.range 10).map (fun i =>
    { id := i + 1, pubdate := (i : Int), url := "http://assets.example/a.gif",
      title := "t", filename := toString i ++ ".gif", width := "", height := "",
      updated := i })⟩

/-- A draft with absent title, width and height. -/
def cNone : DilbertComic :=
  { pubdate := 0, url := "http://assets.example/a.gif", title := none,
    filename := "0001-01-01.gif", width := none, height := none }

/-- A draft with all fields present. -/
def cFull : DilbertComic :=
  { pubdate := date_2024_03_15, url := "http://assets.example/a.gif",
    title := some "Working Hard", filename := "2024-03-15.gif",
    width := some "900", height := some "280" }

/-- The one-row store obtained by inserting `cNone` into the empty store. -/
def dbNone : DB := ⟨[rowOfComic emptyDB cNone]⟩

/-- The one-row store obtained by inserting `cFull` into the empty store. -/
def dbFull : DB := ⟨[rowOfComic emptyDB cFull]⟩

/-! ## Lemmas about the date range -/

theorem mem_daterange {s e d : Int} :
    d ∈ _daterange s e ↔ s ≤ d ∧ d ≤ e := by
  constructor
  · intro h
    obtain ⟨n, hn, rfl⟩ := List.mem_map.mp h
    rw [List.mem_range] at hn
    omega
  · intro h
    refine List.mem_map.mpr ⟨(d - s).toNat, ?_, ?_⟩
    · rw [List.mem_range]
      omega
    · omega

theorem daterange_sorted (s e : Int) :
    List.Sorted (· < ·) (_daterange s e) := by
  unfold _daterange
  refine List.pairwise_map.mpr ?_
  refine (List.pairwise_lt_range _).imp ?_
  intro a b hab
  omega

theorem daterange_length (s e : Int) :
    (_daterange s e).length = (e - s + 1).toNat := by
  unfold _daterange
  rw [List.length_map, List.length_range]

theorem daterange_eq_nil_iff {s e : Int} :
    _daterange s e = [] ↔ e < s := by
  constructor
  · intro h
    have hl := congrArg List.length h
    rw [daterange_length] at hl
    simp only [List.length_nil] at hl
    omega
  · intro h
    have h0 : (e - s + 1).toNat = 0 := by omega
    unfold _daterange
    rw [h0]
    rfl

theorem daterange_cons {s e : Int} (h : s ≤ e) :
    _daterange s e = s :: _daterange (s + 1) e := by
  unfold _daterange
  have hn : (e - s + 1).toNat = (e - (s + 1) + 1).toNat + 1 := by omega
  rw [hn, List.range_succ_eq_map]
  rw [List.map_cons, List.map_map]
  refine congrArg₂ List.cons ?_ ?_
  · simp
  · refine List.map_congr_left ?_
    intro n _
    simp only [Function.comp_apply]
    push_cast
    ring

/-- Splitting the date range at a marked element: the part before the
mark is the range up to the previous day, and the mark lies in `[s, e]`. -/
theorem daterange_split {s e f : Int} {l₁ l₂ : List Int}
    (h : _daterange s e = l₁ ++ f :: l₂) :
    l₁ = _daterange s (f - 1) ∧ s ≤ f ∧ f ≤ e := by
  induction l₁ generalizing s with
  | nil =>
      have hse : s ≤ e := by
        by_contra hc
        rw [daterange_eq_nil_iff.mpr (by omega)] at h
        exact List.noConfusion h
      rw [daterange_cons hse] at h
      obtain ⟨rfl, -⟩ := List.cons.inj h
      refine ⟨?_, le_refl _, hse⟩
      symm
      rw [daterange_eq_nil_iff]
      omega
  | cons a t ih =>
      have hse : s ≤ e := by
        by_contra hc
        rw [daterange_eq_nil_iff.mpr (by omega)] at h
        exact List.noConfusion h
      rw [daterange_cons hse] at h
      obtain ⟨rfl, ht⟩ := List.cons.inj h
      obtain ⟨rfl, hf1, hf2⟩ := ih ht
      refine ⟨?_, by omega, hf2⟩
      rw [show _daterange s (f - 1) = s :: _daterange (s + 1) (f - 1) from
        daterange_cons (by omega)]

/-! ## Lemmas about the store -/

theorem latest_eq_none_iff (db : DB) :
    latest_date_in_db db = none ↔ db.rows = [] := by
  unfold latest_date_in_db rowsByPubdateDesc
  rw [Option.map_eq_none', List.head?_eq_none_iff]
  constructor
  · intro h
    have hl := (List.perm_insertionSort pubdateDesc db.rows).length_eq
    rw [h] at hl
    exact List.length_eq_zero.mp hl.symm
  · intro h
    rw [h]
    rfl

/-- Characterization of `latest_date_in_db` on a non-empty store: it is
the maximum `pubdate` among the stored rows. -/
theorem latest_eq_some_iff (db : DB) (m : Int) :
    latest_date_in_db db = some m ↔
      ((∃ r ∈ db.rows, r.pubdate = m) ∧ ∀ r ∈ db.rows, r.pubdate ≤ m) := by
  have hperm := List.perm_insertionSort pubdateDesc db.rows
  have hsort := List.sorted_insertionSort pubdateDesc db.rows
  unfold latest_date_in_db rowsByPubdateDesc
  constructor
  · intro h
    obtain ⟨r₀, hr₀, hpd⟩ := Option.map_eq_some'.mp h
    obtain ⟨t, hcons⟩ := List.head?_eq_some_iff.mp hr₀
    rw [hcons] at hperm hsort
    refine ⟨⟨r₀, hperm.mem_iff.mp (List.mem_cons_self _ _), hpd⟩, ?_⟩
    intro r hr
    rcases List.mem_cons.mp (hperm.mem_iff.mpr hr) with h1 | h2
    · rw [h1, hpd]
    · exact hpd ▸ List.rel_of_sorted_cons hsort r h2
  · rintro ⟨⟨r₁, hr₁, hpd₁⟩, hmax⟩
    rcases hl : db.rows.insertionSort pubdateDesc with _ | ⟨r₀, t⟩
    · rw [hl] at hperm
      rw [hperm.symm.eq_nil] at hr₁
      exact absurd hr₁ (List.not_mem_nil r₁)
    · rw [hl] at hperm hsort
      have hr₀mem : r₀ ∈ db.rows := hperm.mem_iff.mp (List.mem_cons_self _ _)
      have h1 : r₀.pubdate ≤ m := hmax r₀ hr₀mem
      have h2 : m ≤ r₀.pubdate := by
        rcases List.mem_cons.mp (hperm.mem_iff.mpr hr₁) with he | ht
        · rw [← hpd₁, he]
        · exact hpd₁ ▸ List.rel_of_sorted_cons hsort r₁ ht
      simp [hl, le_antisymm h1 h2]

/-! ## Lemmas about the per-day pipeline -/

theorem find_comic_by_pubdate_ok {o : Origin} {d : Int} {c : DilbertComic}
    (h : find_comic_by_pubdate o d = .ok c) : c.pubdate = d := by
  unfold find_comic_by_pubdate fetch_day find_comic_in_page at h
  rcases hp : o.page d with _ | html <;> rw [hp] at h
  · exact Except.noConfusion h
  · dsimp only at h
    rcases hh : (html.filter (fun el => hasComicClass el.cls)).head? with _ | el <;>
      rw [hh] at h
    · exact Except.noConfusion h
    · obtain rfl := Except.ok.inj h
      rfl

/-- Success shape of one per-day step: the day page was fetched and
parsed, the image download succeeded, and exactly the one derived row
was appended. -/
theorem update_comic_ok {o : Origin} {db db' : DB} {d : Int}
    (h : update_comic_by_pubdate o db d = .ok db') :
    ∃ c, find_comic_by_pubdate o d = .ok c ∧ o.img d = true ∧
      db'.rows = db.rows ++ [rowOfComic db c] ∧ (rowOfComic db c).pubdate = d := by
  unfold update_comic_by_pubdate at h
  rcases hf : find_comic_by_pubdate o d with e | c
  · rw [hf] at h
    exact Except.noConfusion h
  · rw [hf] at h
    unfold download_comic at h
    rcases hi : o.img d with _ | _ <;> rw [hi] at h
    · simp only [Bool.false_eq_true, if_false] at h
      exact Except.noConfusion h
    · simp only [if_true] at h
      unfold write_comic_to_db at h
      by_cases hd : db.rows.any (fun r => r.filename = c.filename)
      · rw [if_pos hd] at h
        exact Except.noConfusion h
      · rw [if_neg hd] at h
        obtain rfl := Except.ok.inj h
        exact ⟨c, rfl, rfl, rfl, find_comic_by_pubdate_ok hf⟩

/-- Success shape of a run over a date list: every date was processed in
order, and the appended rows carry exactly those dates as pubdates. -/
theorem runDates_ok {o : Origin} :
    ∀ {ds : List Int} {db db' : DB} {tr : List Int},
    runDates o db ds = (db', tr, none) →
    tr = ds ∧ ∃ new, db'.rows = db.rows ++ new ∧ new.map (·.pubdate) = ds := by
  intro ds
  induction ds with
  | nil =>
      intro db db' tr h
      unfold runDates at h
      simp only [Prod.mk.injEq] at h
      obtain ⟨rfl, rfl, -⟩ := h
      exact ⟨rfl, [], by simp, rfl⟩
  | cons d rest ih =>
      intro db db' tr h
      unfold runDates at h
      rcases hu : update_comic_by_pubdate o db d with e | db₂ <;> rw [hu] at h <;>
        dsimp only at h
      · simp only [Prod.mk.injEq] at h
        exact absurd h.2.2 (by simp)
      · rcases hr : runDates o db₂ rest with ⟨db₃, tr₃, err₃⟩
        rw [hr] at h
        simp only [Prod.mk.injEq] at h
        obtain ⟨rfl, rfl, rfl⟩ := h
        obtain ⟨rfl, new, hrows, hpd⟩ := ih hr
        obtain ⟨c, -, -, hrows₂, hpdrow⟩ := update_comic_ok hu
        refine ⟨rfl, rowOfComic db c :: new, ?_, ?_⟩
        · rw [hrows, hrows₂, List.append_assoc, List.singleton_append]
        · rw [List.map_cons, hpd, hpdrow]

/-- Failure shape of a run over a date list: a failing run splits into a
successfully processed plain start segment, the failing date (whose step
errored on the store as committed so far, which is also the final
store), and unprocessed later dates. -/
theorem runDates_err {o : Origin} :
    ∀ {ds : List Int} {db db' : DB} {tr : List Int} {e : SyncError},
    runDates o db ds = (db', tr, some e) →
    ∃ ds₁ f ds₂, ds = ds₁ ++ f :: ds₂ ∧ runDates o db ds₁ = (db', ds₁, none) ∧
      update_comic_by_pubdate o db' f = .error e ∧ tr = ds₁ ++ [f] := by
  intro ds
  induction ds with
  | nil =>
      intro db db' tr e h
      unfold runDates at h
      simp only [Prod.mk.injEq] at h
      exact absurd h.2.2 (by simp)
  | cons d rest ih =>
      intro db db' tr e h
      unfold runDates at h
      rcases hu : update_comic_by_pubdate o db d with e' | db₂ <;> rw [hu] at h <;>
        dsimp only at h
      · simp only [Prod.mk.injEq] at h
        obtain ⟨rfl, rfl, he⟩ := h
        obtain rfl := Option.some.inj he
        exact ⟨[], d, rest, rfl, rfl, hu, rfl⟩
      · rcases hr : runDates o db₂ rest with ⟨db₃, tr₃, err₃⟩
        rw [hr] at h
        simp only [Prod.mk.injEq] at h
        obtain ⟨rfl, rfl, rfl⟩ := h
        obtain ⟨ds₁, f, ds₂, rfl, hok, herr, rfl⟩ := ih hr
        refine ⟨d :: ds₁, f, ds₂, rfl, ?_, herr, rfl⟩
        unfold runDates
        rw [hu]
        dsimp only
        rw [hok]

/-- Appending date lists: a run over `l₁ ++ l₂` whose `l₁` part succeeds
continues as the run over `l₂` from the intermediate store. -/
theorem runDates_append {o : Origin} :
    ∀ {l₁ l₂ : List Int} {db db₁ : DB},
    runDates o db l₁ = (db₁, l₁, none) →
    runDates o db (l₁ ++ l₂) =
      ((runDates o db₁ l₂).1, l₁ ++ (runDates o db₁ l₂).2.1,
        (runDates o db₁ l₂).2.2) := by
  intro l₁
  induction l₁ with
  | nil =>
      intro l₂ db db₁ h
      unfold runDates at h
      simp only [Prod.mk.injEq] at h
      obtain ⟨rfl, -, -⟩ := h
      simp
  | cons d t ih =>
      intro l₂ db db₁ h
      unfold runDates at h
      rcases hu : update_comic_by_pubdate o db d with e' | db₂ <;> rw [hu] at h <;>
        dsimp only at h
      · simp only [Prod.mk.injEq] at h
        exact absurd h.2.2 (by simp)
      · rcases hr : runDates o db₂ t with ⟨db₃, tr₃, err₃⟩
        rw [hr] at h
        simp only [Prod.mk.injEq, List.cons.injEq] at h
        obtain ⟨rfl, ⟨-, rfl⟩, rfl⟩ := h
        have hih := @ih l₂ db₂ db₃ hr
        show runDates o db (d :: (tr₃ ++ l₂)) = _
        rw [show runDates o db (d :: (tr₃ ++ l₂)) =
          (match update_comic_by_pubdate o db d with
            | Except.error e => (db, [d], some e)
            | Except.ok db' => ((runDates o db' (tr₃ ++ l₂)).1,
                d :: (runDates o db' (tr₃ ++ l₂)).2.1,
                (runDates o db' (tr₃ ++ l₂)).2.2)) from rfl]
        rw [hu]
        dsimp only
        rw [hih]
        rfl

/-- Running over the empty date list does nothing. -/
theorem runDates_nil {o : Origin} {db : DB} : runDates o db [] = (db, [], none) :=
  rfl

/-- A run whose first date fails leaves the store untouched, records the
single attempted fetch, and aborts with that error. -/
theorem runDates_cons_err {o : Origin} {db : DB} {d : Int} {e : SyncError}
    {ds : List Int} (h : update_comic_by_pubdate o db d = .error e) :
    runDates o db (d :: ds) = (db, [d], some e) := by
  rw [show runDates o db (d :: ds) =
    (match update_comic_by_pubdate o db d with
      | Except.error e => (db, [d], some e)
      | Except.ok db' => ((runDates o db' ds).1, d :: (runDates o db' ds).2.1,
          (runDates o db' ds).2.2)) from rfl, h]

/-- Unfolding of `update` as a run over the planned dates. -/
theorem update_def (o : Origin) (db : DB) (today : Int) :
    update o db today = runDates o db (plannedDates db today) :=
  rfl

/-- Planned range for an empty `latest`: the ten days ending today. -/
theorem plannedDates_of_none {db : DB} {today : Int}
    (h : latest_date_in_db db = none) :
    plannedDates db today = _daterange (today - 9) today := by
  unfold plannedDates
  rw [h]
  dsimp only
  rw [show today - 10 + 1 = today - 9 from by omega]

/-- Planned range for a stored `latest`: the day after it through today. -/
theorem plannedDates_of_some {db : DB} {today L : Int}
    (h : latest_date_in_db db = some L) :
    plannedDates db today = _daterange (L + 1) today := by
  unfold plannedDates
  rw [h]

/-! ## Claim theorems -/

/-- C8: for every non-empty store, `latestDate()` returns the maximum
pubdate among all stored records; for an empty store it signals absence. -/
theorem C8_latest_is_max (db : DB) :
    (db.rows = [] → latest_date_in_db db = none)
    ∧ (db.rows ≠ [] →
        ∃ m, latest_date_in_db db = some m
          ∧ (∃ r ∈ db.rows, r.pubdate = m)
          ∧ ∀ r ∈ db.rows, r.pubdate ≤ m) := by
  constructor
  · intro h
    exact (latest_eq_none_iff db).mpr h
  · intro h
    rcases hl : latest_date_in_db db with _ | m
    · exact absurd ((latest_eq_none_iff db).mp hl) h
    · obtain ⟨hmem, hmax⟩ := (latest_eq_some_iff db m).mp hl
      exact ⟨m, rfl, hmem, hmax⟩

/-- Witness for C8 on a concrete non-empty store. -/
theorem C8_latest_is_max_witness :
    ∃ m, latest_date_in_db dbOne = some m
      ∧ (∃ r ∈ dbOne.rows, r.pubdate = m)
      ∧ ∀ r ∈ dbOne.rows, r.pubdate ≤ m :=
  (C8_latest_is_max dbOne).2 (by decide)

/-- C2: for every non-empty store with latest stored pubdate `L`, one
run processes exactly the dates from `L + 1` to today inclusive, in
ascending order; when `L ≥ today` the range is empty and the run makes
no fetches and no inserts. -/
theorem C2_sync_range (db : DB) (today L : Int) (o : Origin)
    (h : latest_date_in_db db = some L) :
    plannedDates db today = _daterange (L + 1) today
    ∧ List.Sorted (· < ·) (plannedDates db today)
    ∧ (∀ d, d ∈ plannedDates db today ↔ L + 1 ≤ d ∧ d ≤ today)
    ∧ ((update o db today).2.2 = none →
        (update o db today).2.1 = _daterange (L + 1) today)
    ∧ (today ≤ L → update o db today = (db, [], none)) := by
  have hp := @plannedDates_of_some db today L h
  refine ⟨hp, ?_, ?_, ?_, ?_⟩
  · rw [hp]
    exact daterange_sorted _ _
  · intro d
    rw [hp]
    exact mem_daterange
  · rcases hu : update o db today with ⟨dbx, trx, errx⟩
    dsimp only
    intro hnone
    subst hnone
    rw [update_def, hp] at hu
    exact (runDates_ok hu).1
  · intro hL
    rw [update_def, hp, daterange_eq_nil_iff.mpr (by omega)]
    exact runDates_nil

/-- Witness for C2 on a concrete store whose latest date is today. -/
theorem C2_sync_range_witness :
    update allOkOrigin dbOne date_2024_03_15 = (dbOne, [], none) :=
  (C2_sync_range dbOne date_2024_03_15 date_2024_03_15 allOkOrigin
    (by decide)).2.2.2.2 (by decide)

/-- C9: a Comic draft constructed with an empty-string title gets the
placeholder `"-"` as its title, and the title column value an insert
derives from any constructed draft is never the empty string. -/
theorem C9_empty_title_placeholder (db : DB) (pd : Int) (url : String)
    (t : Option String) (fn : String) (w h : Option String) :
    (mkComic pd url (some "") fn w h).title = some "-"
    ∧ (rowOfComic db (mkComic pd url t fn w h)).title ≠ "" := by
  constructor
  · rfl
  · by_cases ht : t = some ""
    · simp [rowOfComic, mkComic, pyStr, ht]
    · cases t with
      | none => simp [rowOfComic, mkComic, pyStr, ht]
      | some s =>
          have hs : s ≠ "" := fun hes => ht (by rw [hes])
          simp [rowOfComic, mkComic, pyStr, ht, hs]

/-- C10: the insert stringifies each bound field, so an absent (None)
width, height or title is stored as the literal text `None`. -/
theorem C10_insert_stringifies (db db' : DB) (c : DilbertComic)
    (h : write_comic_to_db db c = .ok db') :
    db'.rows = db.rows ++ [rowOfComic db c]
    ∧ (c.width = none → (rowOfComic db c).width = "None")
    ∧ (c.height = none → (rowOfComic db c).height = "None")
    ∧ (c.title = none → (rowOfComic db c).title = "None") := by
  refine ⟨?_, ?_, ?_, ?_⟩
  · unfold write_comic_to_db at h
    by_cases hd : db.rows.any (fun r => r.filename = c.filename)
    · rw [if_pos hd] at h
      exact Except.noConfusion h
    · rw [if_neg hd] at h
      obtain rfl := Except.ok.inj h
      rfl
  · intro hw
    unfold rowOfComic pyStr
    rw [hw]
    rfl
  · intro hw
    unfold rowOfComic pyStr
    rw [hw]
    rfl
  · intro hw
    unfold rowOfComic pyStr
    rw [hw]
    rfl

/-- Witness for C10 on a concrete draft with absent fields. -/
theorem C10_insert_stringifies_witness :
    dbNone.rows = emptyDB.rows ++ [rowOfComic emptyDB cNone]
    ∧ (cNone.width = none → (rowOfComic emptyDB cNone).width = "None")
    ∧ (cNone.height = none → (rowOfComic emptyDB cNone).height = "None")
    ∧ (cNone.title = none → (rowOfComic emptyDB cNone).title = "None") :=
  C10_insert_stringifies emptyDB dbNone cNone rfl

/-- C5: inserting two drafts with the same derived filename fails with
`ConstraintError` on the second insert, and a successful insert keeps
filenames pairwise distinct, so the store holds at most one record per
filename at all times. -/
theorem C5_filename_unique :
    (∀ (db db' : DB) (c₁ c₂ : DilbertComic), c₁.filename = c₂.filename →
      write_comic_to_db db c₁ = .ok db' →
      write_comic_to_db db' c₂ = .error .constraintError)
    ∧ (∀ (db db' : DB) (c : DilbertComic),
      db.rows.Pairwise (fun a b => a.filename ≠ b.filename) →
      write_comic_to_db db c = .ok db' →
      db'.rows.Pairwise (fun a b => a.filename ≠ b.filename)) := by
  have hok : ∀ (db db' : DB) (c : DilbertComic),
      write_comic_to_db db c = .ok db' →
      (¬db.rows.any (fun r => r.filename = c.filename))
        ∧ db'.rows = db.rows ++ [rowOfComic db c] := by
    intro db db' c h
    unfold write_comic_to_db at h
    by_cases hd : db.rows.any (fun r => r.filename = c.filename)
    · rw [if_pos hd] at h
      exact Except.noConfusion h
    · rw [if_neg hd] at h
      obtain rfl := Except.ok.inj h
      exact ⟨hd, rfl⟩
  constructor
  · intro db db' c₁ c₂ hfn h
    obtain ⟨-, hrows⟩ := hok db db' c₁ h
    unfold write_comic_to_db
    rw [if_pos ?_]
    rw [hrows, List.any_append]
    refine Bool.or_eq_true .. ▸ Or.inr ?_
    simp [rowOfComic, hfn]
  · intro db db' c hpw h
    obtain ⟨hany, hrows⟩ := hok db db' c h
    rw [hrows, List.pairwise_append]
    refine ⟨hpw, by simp, ?_⟩
    intro a ha b hb
    rw [List.mem_singleton.mp hb]
    show a.filename ≠ (rowOfComic db c).filename
    intro heq
    exact hany (List.any_eq_true.mpr ⟨a, ha, by simp [rowOfComic] at heq ⊢; exact heq⟩)

/-- Witness for C5: re-inserting the same draft is rejected. -/
theorem C5_filename_unique_witness :
    write_comic_to_db dbFull cFull = .error .constraintError :=
  C5_filename_unique.1 emptyDB dbFull cFull cFull rfl rfl

/-- C7: a row for a date is committed only after the day-page fetch, the
parse and the image download for that date all succeeded (and then it is
the one derived row); if the per-date step fails in any way, the run
step leaves the store exactly as it was and aborts. -/
theorem C7_commit_after_success (o : Origin) (db : DB) (d : Int) :
    (∀ db', update_comic_by_pubdate o db d = .ok db' →
      (∃ html, o.page d = .ok html) ∧ o.img d = true ∧
      ∃ c, find_comic_by_pubdate o d = .ok c
        ∧ db'.rows = db.rows ++ [rowOfComic db c]
        ∧ (rowOfComic db c).pubdate = d)
    ∧ (∀ e, update_comic_by_pubdate o db d = .error e →
      ∀ ds, runDates o db (d :: ds) = (db, [d], some e)) := by
  constructor
  · intro db' h
    obtain ⟨c, hf, hi, hrows, hpd⟩ := update_comic_ok h
    refine ⟨?_, hi, c, hf, hrows, hpd⟩
    unfold find_comic_by_pubdate fetch_day at hf
    rcases hp : o.page d with _ | html <;> rw [hp] at hf <;> dsimp only at hf
    · exact Except.noConfusion hf
    · exact ⟨html, rfl⟩
  · intro e h ds
    exact runDates_cons_err h

/-- Witness for C7 on a failing fetch. -/
theorem C7_commit_after_success_witness :
    runDates failOrigin emptyDB [date_2024_03_15]
      = (emptyDB, [date_2024_03_15], some .transportError) :=
  (C7_commit_after_success failOrigin emptyDB date_2024_03_15).2
    .transportError rfl []

/-- C4: when the fetched day page has no element whose space-delimited
class list contains the comic marker class, the per-date step fails with
`ParseError`, the store gains no row for that date, and the run aborts
at that date without processing later ones. -/
theorem C4_missing_marker_aborts (o : Origin) (db db₁ : DB) (d : Int)
    (html : Html) (ds₁ ds₂ : List Int)
    (hpage : o.page d = .ok html)
    (hnone : ∀ el ∈ html, hasComicClass el.cls = false)
    (hok : runDates o db ds₁ = (db₁, ds₁, none))
    (hnotin : d ∉ ds₁) :
    runDates o db (ds₁ ++ d :: ds₂) = (db₁, ds₁ ++ [d], some .parseError)
    ∧ ∀ r ∈ db₁.rows, r.pubdate = d → r ∈ db.rows := by
  have hfilter : html.filter (fun el => hasComicClass el.cls) = [] := by
    rw [List.filter_eq_nil_iff]
    intro el hel
    simp [hnone el hel]
  have hstep : update_comic_by_pubdate o db₁ d = .error .parseError := by
    unfold update_comic_by_pubdate find_comic_by_pubdate fetch_day
      find_comic_in_page
    rw [hpage]
    dsimp only
    rw [hfilter]
    rfl
  constructor
  · rw [runDates_append hok, runDates_cons_err hstep]
  · intro r hr hpd
    obtain ⟨-, new, hrows, hpds⟩ := runDates_ok hok
    rw [hrows] at hr
    rcases List.mem_append.mp hr with h1 | h2
    · exact h1
    · exact absurd (hpds ▸ List.mem_map.mpr ⟨r, h2, hpd⟩) hnotin

/-- Witness for C4 on a concrete marker-free page. -/
theorem C4_missing_marker_aborts_witness :
    runDates noMarkerOrigin emptyDB ([] ++ date_2024_03_15 :: [])
      = (emptyDB, [] ++ [date_2024_03_15], some .parseError)
    ∧ ∀ r ∈ emptyDB.rows, r.pubdate = date_2024_03_15 → r ∈ emptyDB.rows :=
  C4_missing_marker_aborts noMarkerOrigin emptyDB emptyDB date_2024_03_15
    [noComicEl] [] [] rfl (by decide) rfl (by decide)

/-- C6: for a store with at least ten records the feed has exactly ten
entries, in descending pubdate order, and each entry's description
carries an image src equal to the base URL joined with the record's
filename. -/
theorem C6_feed_shape (db : DB) (baseurl : String)
    (h : 10 ≤ db.rows.length) :
    (feedEntries db baseurl).length = 10
    ∧ (feedEntries db baseurl).Pairwise (fun a b => b.pubdate ≤ a.pubdate)
    ∧ ∀ item ∈ feedEntries db baseurl, ∃ r ∈ comics db 10,
        item = feedItemOfRow baseurl r
        ∧ ∃ rest, item.description
            = "<img src=\"" ++ (baseurl ++ "/" ++ r.filename) ++ ("\"" ++ rest) := by
  refine ⟨?_, ?_, ?_⟩
  · unfold feedEntries comics rowsByPubdateDesc
    rw [List.length_map, List.length_take,
      (List.perm_insertionSort pubdateDesc db.rows).length_eq]
    omega
  · unfold feedEntries comics rowsByPubdateDesc
    refine List.pairwise_map.mpr ?_
    refine List.Pairwise.sublist (List.take_sublist _ _) ?_
    exact List.sorted_insertionSort pubdateDesc db.rows
  · intro item hitem
    obtain ⟨r, hr, rfl⟩ := List.mem_map.mp hitem
    refine ⟨r, hr, rfl, " alt=\"comic for " ++ isoformat r.pubdate ++ "\" "
      ++ (if r.width ≠ "" then "width=\"" ++ r.width ++ "\"" else "") ++ " "
      ++ (if r.height ≠ "" then "height=\"" ++ r.height ++ "\"" else "")
      ++ "/>", ?_⟩
    show tag r baseurl = _
    unfold tag
    rw [show ("\" alt=\"comic for " : String) = "\"" ++ " alt=\"comic for "
      from rfl]
    simp only [String.append_assoc]

/-- Witness for C6 on a concrete ten-row store. -/
theorem C6_feed_shape_witness :
    (feedEntries dbTen "http://localhost").length = 10 :=
  (C6_feed_shape dbTen "http://localhost" (by decide)).1

/-- C1 as stated fails on the code: on an empty store with today
2024-03-15 the run fetches 10 dates, not 11, and the fetched dates are
not the range starting 2024-03-05 (the code adds one day to the
10-days-ago default before building the range). -/
theorem C1_counterexample :
    (update allOkOrigin emptyDB date_2024_03_15).2.1.length ≠ 11
    ∧ (update allOkOrigin emptyDB date_2024_03_15).2.1
        ≠ _daterange date_2024_03_05 date_2024_03_15 := by
  constructor
  · decide
  · decide

/-- C1 (amended): on an empty store the computed range starts 9 days
before today (the 10-days-ago default plus the uniform one-day shift),
so with today 2024-03-15 one run fetches exactly the 10 dates
2024-03-06 through 2024-03-15, in ascending order, and completes. -/
theorem C1_empty_store_range (today : Int) :
    plannedDates emptyDB today = _daterange (today - 9) today
    ∧ (update allOkOrigin emptyDB date_2024_03_15).2.1
        = _daterange date_2024_03_06 date_2024_03_15
    ∧ (update allOkOrigin emptyDB date_2024_03_15).2.1.length = 10
    ∧ List.Sorted (· < ·) (update allOkOrigin emptyDB date_2024_03_15).2.1
    ∧ (update allOkOrigin emptyDB date_2024_03_15).2.2 = none := by
  refine ⟨?_, by decide, by decide, by decide, by decide⟩
  exact plannedDates_of_none ((latest_eq_none_iff emptyDB).mpr rfl)

/-- After a run aborted with an error, a re-run from the resulting store
re-attempts the failing date first and fails the same way, so the store
is unchanged (the key step of idempotence in the failing case).  The
`hbound` hypothesis says every stored pubdate lies before the planned
range, which holds for both branches of the `latest` default. -/
theorem second_run_aborted_stable {o : Origin} {db db1 : DB}
    {today s₁ : Int} {tr1 : List Int} {e : SyncError}
    (hplan : plannedDates db today = _daterange s₁ today)
    (hbound : ∀ r ∈ db.rows, r.pubdate < s₁)
    (hrun : runDates o db (plannedDates db today) = (db1, tr1, some e)) :
    (update o db1 today).1 = db1 := by
  rw [hplan] at hrun
  obtain ⟨ds₁, f, ds₂, hsplitP, hok, herr, -⟩ := runDates_err hrun
  obtain ⟨hds₁, hsf, hfe⟩ := daterange_split hsplitP
  by_cases hne : ds₁ = []
  · subst hne
    rw [runDates_nil] at hok
    simp only [Prod.mk.injEq] at hok
    obtain ⟨rfl, -, -⟩ := hok
    rw [update_def, hplan, hsplitP, List.nil_append, runDates_cons_err herr]
  · have hs₁f : s₁ ≤ f - 1 := by
      by_contra hc
      rw [daterange_eq_nil_iff.mpr (by omega)] at hds₁
      exact hne hds₁
    obtain ⟨-, new, hrows, hpds⟩ := runDates_ok hok
    have hlat1 : latest_date_in_db db1 = some (f - 1) := by
      rw [latest_eq_some_iff]
      constructor
      · have hmem : (f - 1) ∈ ds₁ := by
          rw [hds₁, mem_daterange]
          omega
        rw [← hpds] at hmem
        obtain ⟨r, hrnew, hrpd⟩ := List.mem_map.mp hmem
        exact ⟨r, by rw [hrows]; exact List.mem_append_right _ hrnew, hrpd⟩
      · intro r hr
        rw [hrows] at hr
        rcases List.mem_append.mp hr with hold | hnew2
        · have := hbound r hold
          omega
        · have hin : r.pubdate ∈ ds₁ := by
            rw [← hpds]
            exact List.mem_map.mpr ⟨r, hnew2, rfl⟩
          rw [hds₁, mem_daterange] at hin
          omega
    rw [update_def, plannedDates_of_some hlat1,
      show f - 1 + 1 = f from by omega, daterange_cons hfe,
      runDates_cons_err herr]

/-- C3 as stated fails on the code: with the origin unchanged between
the two runs but failing (network down), the first run commits nothing,
and the second run's computed date range is the same non-empty range
again, not the empty one the claim asserts. -/
theorem C3_counterexample :
    (update failOrigin dbOld date_2024_03_15).1 = dbOld
    ∧ plannedDates (update failOrigin dbOld date_2024_03_15).1 date_2024_03_15
        ≠ [] := by
  exact ⟨by decide, by decide⟩

/-- C3 (amended): running the Synchronizer twice with the origin
unchanged always leaves the store in the final state of the first run;
when the first run completes without error, the second run's computed
range is empty and it fetches and inserts nothing. -/
theorem C3_twice_equals_once (o : Origin) (db : DB) (today : Int) :
    (update o (update o db today).1 today).1 = (update o db today).1
    ∧ ((update o db today).2.2 = none →
        update o (update o db today).1 today
          = ((update o db today).1, [], none)) := by
  rcases hrun : update o db today with ⟨db1, tr1, err1⟩
  dsimp only
  rw [update_def] at hrun
  cases err1 with
  | none =>
      obtain ⟨htr, new, hrows, hpds⟩ := runDates_ok hrun
      by_cases hP : plannedDates db today = []
      · rw [hP, runDates_nil] at hrun
        simp only [Prod.mk.injEq] at hrun
        obtain ⟨rfl, -, -⟩ := hrun
        have h2 : update o db today = (db, [], none) := by
          rw [update_def, hP, runDates_nil]
        exact ⟨by rw [h2], fun _ => h2⟩
      · have hlat1 : latest_date_in_db db1 = some today := by
          rw [latest_eq_some_iff]
          constructor
          · have htoday : today ∈ plannedDates db today := by
              rcases hl : latest_date_in_db db with _ | L
              · rw [plannedDates_of_none hl, mem_daterange]
                omega
              · rw [plannedDates_of_some hl] at hP ⊢
                rw [daterange_eq_nil_iff] at hP
                rw [mem_daterange]
                omega
            rw [← hpds] at htoday
            obtain ⟨r, hrnew, hrpd⟩ := List.mem_map.mp htoday
            exact ⟨r, by rw [hrows]; exact List.mem_append_right _ hrnew, hrpd⟩
          · intro r hr
            rw [hrows] at hr
            rcases List.mem_append.mp hr with hold | hnew2
            · rcases hl : latest_date_in_db db with _ | L
              · rw [(latest_eq_none_iff db).mp hl] at hold
                exact absurd hold (List.not_mem_nil r)
              · have hmax := ((latest_eq_some_iff db L).mp hl).2 r hold
                rw [plannedDates_of_some hl, daterange_eq_nil_iff] at hP
                omega
            · have hin : r.pubdate ∈ plannedDates db today := by
                rw [← hpds]
                exact List.mem_map.mpr ⟨r, hnew2, rfl⟩
              rcases hl : latest_date_in_db db with _ | L
              · rw [plannedDates_of_none hl, mem_daterange] at hin
                omega
              · rw [plannedDates_of_some hl, mem_daterange] at hin
                omega
        have h2 : update o db1 today = (db1, [], none) := by
          rw [update_def, plannedDates_of_some hlat1,
            daterange_eq_nil_iff.mpr (by omega), runDates_nil]
        exact ⟨by rw [h2], fun _ => h2⟩
  | some e =>
      refine ⟨?_, fun hc => absurd hc (by simp)⟩
      rcases hl : latest_date_in_db db with _ | L
      · refine second_run_aborted_stable (plannedDates_of_none hl) ?_ hrun
        intro r hr
        rw [(latest_eq_none_iff db).mp hl] at hr
        exact absurd hr (List.not_mem_nil r)
      · refine second_run_aborted_stable (plannedDates_of_some hl) ?_ hrun
        intro r hr
        have := ((latest_eq_some_iff db L).mp hl).2 r hr
        omega

/-- Witness for C3 on a concrete successful first run. -/
theorem C3_twice_equals_once_witness :
    update allOkOrigin (update allOkOrigin emptyDB date_2024_03_15).1
        date_2024_03_15
      = ((update allOkOrigin emptyDB date_2024_03_15).1, [], none) :=
  (C3_twice_equals_once allOkOrigin emptyDB date_2024_03_15).2 (by decide)

end Dilbert
